import Mathlib

/-!
Verification of the Storage-Class-Memory manager (scm.c) and the persistent
AVL word index (avl.c).

The C code is shallowly embedded:
* machine sizes are concrete: sizeof(size_t) = 8, sizeof(struct node) = 40,
  sizeof(struct state) = 24 (x86-64 layout, as the code assumes);
* C strings are byte lists (List Nat), compared like strcmp;
* pointer arithmetic is byte offsets from the mapping base;
* a null-pointer dereference (a crash) is modelled by Option.none;
* the mapped region, where byte contents matter, is a List Nat of bytes.
-/

namespace SCMM

/-- sizeof(size_t) on the target platform. -/
def szWord : Nat := 8

/-- sizeof(struct node): int depth (4 + 4 padding) + uint64 count + 3 pointers. -/
def nodeSize : Nat := 40

/-- sizeof(struct state): uint64 items + uint64 unique + 1 pointer. -/
def stateSize : Nat := 24

/-- The arena bookkeeping kept in struct scm (scm.c): total file size and the
utilization water mark.  The base address is left implicit; pointers are
modelled as byte offsets from base. -/
structure SCM where
  size : Nat
  utilized : Nat
deriving DecidableEq, Repr

/-- scm_malloc (scm.c lines 155-187) on the bookkeeping state.  A non-null scm
handle is implicit.  Returns the new state and the offset of the returned
pointer from base, or none on failure.  Faithful to the source: the capacity
check is utilized + n + sizeof(size_t) > size; the size header is written at
base + sizeof(size_t) + utilized; the returned pointer is one size_t past the
header; utilized advances by n + sizeof(size_t). -/
def scm_malloc (scm : SCM) (n : Nat) : Option (SCM × Nat) :=
  if n = 0 then none
  else if scm.utilized + n + szWord > scm.size then none
  else some ({ scm with utilized := scm.utilized + n + szWord },
             szWord + scm.utilized + szWord)

/-- scm_strdup (scm.c lines 198-230) on the bookkeeping state, for a string of
len bytes including the terminator: a pre-check utilized + len > size, then
scm_malloc. -/
def scm_strdup_len (scm : SCM) (len : Nat) : Option (SCM × Nat) :=
  if scm.utilized + len > scm.size then none
  else scm_malloc scm len

/-- A C string: its bytes, without the terminating zero. -/
abbrev Str := List Nat

/-- strcmp over byte strings, reduced to its sign (the code only ever tests
the sign).  The terminating zero makes a proper prefix compare less. -/
def strcmp : Str → Str → Int
  | [], [] => 0
  | [], _ :: _ => -1
  | _ :: _, [] => 1
  | a :: as, b :: bs => if a < b then -1 else if b < a then 1 else strcmp as bs

/-- scm_strdup for a word w: duplicates safe_strlen(w) + 1 bytes. -/
def scm_strdup (scm : SCM) (w : Str) : Option (SCM × Nat) :=
  scm_strdup_len scm (w.length + 1)

/-- struct node (avl.c): depth, count, item string, children.  nil is the
null pointer. -/
inductive Tree where
  | nil : Tree
  | node (depth : Int) (count : Nat) (item : Str) (left right : Tree) : Tree
deriving DecidableEq, Repr

/-- delta (avl.c lines 31-35): stored depth of a node, -1 for null. -/
def delta : Tree → Int
  | .nil => -1
  | .node d _ _ _ _ => d

/-- depth (avl.c lines 43-47): one more than the larger stored child depth. -/
def depthC (a b : Tree) : Int :=
  if delta a > delta b then delta a + 1 else delta b + 1

/-- rotate_right (avl.c lines 49-60).  Crashes (none) when node or its left
child is null. -/
def rotate_right : Tree → Option Tree
  | .nil => none
  | .node _ c it l r =>
    match l with
    | .nil => none
    | .node _ lc lit ll lr =>
      let nd := Tree.node (depthC lr r) c it lr r
      some (.node (depthC ll nd) lc lit ll nd)

/-- rotate_left (avl.c lines 62-73).  Crashes (none) when node or its right
child is null. -/
def rotate_left : Tree → Option Tree
  | .nil => none
  | .node _ c it l r =>
    match r with
    | .nil => none
    | .node _ rc rit rl rr =>
      let nd := Tree.node (depthC l rl) c it l rl
      some (.node (depthC rr nd) rc rit nd rr)

/-- rotate_left_right (avl.c lines 75-80): node->left = rotate_left(node->left);
return rotate_right(node). -/
def rotate_left_right : Tree → Option Tree
  | .nil => none
  | .node d c it l r =>
    match rotate_left l with
    | none => none
    | some l2 => rotate_right (.node d c it l2 r)

/-- rotate_right_left (avl.c lines 82-87): node->right = rotate_right(node->right);
return rotate_left(node). -/
def rotate_right_left : Tree → Option Tree
  | .nil => none
  | .node d c it l r =>
    match rotate_right r with
    | none => none
    | some r2 => rotate_left (.node d c it l r2)

/-- Lines 129-149 of update (avl.c): recompute depth, then, when
1 < abs(balance), run BOTH rebalancing conditionals in sequence, the first
keyed on root->right->item, the second on root->left->item of the already
rotated root.  A null dereference is none. -/
def updateReb (t : Tree) (item : Str) : Option Tree :=
  match t with
  | .nil => some .nil
  | .node _ c it l r =>
    let root := Tree.node (depthC l r) c it l r
    if 1 < (delta l - delta r).natAbs then
      match r with
      | .nil => none
      | .node _ _ rit _ _ =>
        match (if 0 < strcmp item rit then rotate_left root
               else rotate_right_left root) with
        | none => none
        | some root2 =>
          match root2 with
          | .nil => none
          | .node _ _ _ l2 _ =>
            match l2 with
            | .nil => none
            | .node _ _ lit _ _ =>
              if strcmp item lit < 0 then rotate_right root2
              else rotate_left_right root2
    else some root

/-- The items/unique counters of struct state (avl.c lines 15-27). -/
structure AvlState where
  items : Nat
  unique : Nat
deriving DecidableEq, Repr

/-- update (avl.c lines 89-152).  Threads the arena and the counters.
Result none is a crash; result some (scm, st, none) is the C function
returning NULL (allocation failure); some (scm, st, some t) returns node t.
A NULL returned by a recursive call is assigned into the child pointer,
exactly as in the source. -/
def update (scm : SCM) (st : AvlState) (root : Tree) (item : Str) :
    Option (SCM × AvlState × Option Tree) :=
  match root with
  | .nil =>
    match scm_malloc scm nodeSize with
    | none => some (scm, st, none)
    | some (scm1, _) =>
      match scm_strdup scm1 item with
      | none => some (scm1, st, none)
      | some (scm2, _) =>
        some (scm2, ⟨st.items + 1, st.unique + 1⟩,
              some (.node 0 1 item .nil .nil))
  | .node d c it l r =>
    if strcmp item it = 0 then
      match updateReb (.node d (c + 1) it l r) item with
      | none => none
      | some t2 => some (scm, ⟨st.items + 1, st.unique⟩, some t2)
    else if strcmp item it < 0 then
      match update scm st l item with
      | none => none
      | some (scm2, st2, l2) =>
        match updateReb (.node d c it (l2.getD .nil) r) item with
        | none => none
        | some t2 => some (scm2, st2, some t2)
    else
      match update scm st r item with
      | none => none
      | some (scm2, st2, r2) =>
        match updateReb (.node d c it l (r2.getD .nil)) item with
        | none => none
        | some t2 => some (scm2, st2, some t2)

/-- struct avl together with the arena-resident struct state it points to. -/
structure AVL where
  scm : SCM
  items : Nat
  unique : Nat
  root : Tree
deriving DecidableEq, Repr

/-- avl_insert (avl.c lines 213-228).  none is a crash; the Int is the C
return value (0 success, -1 error).  When update returns NULL the root is
left untouched. -/
def avl_insert (a : AVL) (item : Str) : Option (AVL × Int) :=
  match update a.scm ⟨a.items, a.unique⟩ a.root item with
  | none => none
  | some (scm2, st2, none) =>
      some ({ a with scm := scm2, items := st2.items, unique := st2.unique }, -1)
  | some (scm2, st2, some t) =>
      some (⟨scm2, st2.items, st2.unique, t⟩, 0)

/-- avl_exists (avl.c lines 230-249): iterative strcmp descent returning the
count, 0 when absent. -/
def avl_exists : Tree → Str → Nat
  | .nil, _ => 0
  | .node _ c it l r, w =>
    let d := strcmp w it
    if d = 0 then c
    else if d < 0 then avl_exists l w else avl_exists r w

/-- traverse (avl.c lines 154-163) collecting the callback arguments:
in-order (item, count) pairs. -/
def inorder : Tree → List (Str × Nat)
  | .nil => []
  | .node _ c it l r => inorder l ++ (it, c) :: inorder r

/-- Leftmost (item, count) of a subtree: the min scan of avl_delete_node
(avl.c lines 356-362).  Only called on non-null subtrees. -/
def minNode : Tree → Str × Nat
  | .nil => ([], 0)
  | .node _ c it l _ =>
    match l with
    | .nil => (it, c)
    | .node dl cl itl ll lr => minNode (.node dl cl itl ll lr)

/-- Recompute root->depth from the children (avl.c line 374). -/
def setDepth : Tree → Tree
  | .nil => .nil
  | .node _ c it l r => .node (depthC l r) c it l r

/-- avl_delete_node (avl.c lines 292-377).  none is a crash (null dereference
inside the rebalancing rotations).  scm_free is a no-op in the source (its
body is commented out), so the arena state is untouched. -/
def avl_delete_node (t : Tree) (w : Str) : Option Tree :=
  match t with
  | .nil => some .nil
  | .node d c it l r =>
    let cmp := strcmp w it
    if cmp < 0 then
      match avl_delete_node l w with
      | none => none
      | some l2 =>
        let root := Tree.node d c it l2 r
        let reb : Option Tree :=
          if 1 < (delta l2 - delta r).natAbs then
            match l2 with
            | .nil => none
            | .node _ _ lit _ _ =>
              if strcmp w lit < 0 then rotate_right root
              else rotate_left_right root
          else some root
        match reb with
        | none => none
        | some t2 => some (setDepth t2)
    else if 0 < cmp then
      match avl_delete_node r w with
      | none => none
      | some r2 =>
        let root := Tree.node d c it l r2
        let reb : Option Tree :=
          if 1 < (delta l - delta r2).natAbs then
            match r2 with
            | .nil => none
            | .node _ _ rit _ _ =>
              if 0 < strcmp w rit then rotate_left root
              else rotate_right_left root
          else some root
        match reb with
        | none => none
        | some t2 => some (setDepth t2)
    else
      match l, r with
      | .nil, .nil => some .nil
      | .nil, .node dr cr itr rl rr => some (setDepth (.node dr cr itr rl rr))
      | .node dl cl itl ll lr, .nil => some (setDepth (.node dl cl itl ll lr))
      | .node dl cl itl ll lr, .node dr cr itr rl rr =>
        let m := minNode (.node dr cr itr rl rr)
        match avl_delete_node (.node dr cr itr rl rr) m.1 with
        | none => none
        | some r2 =>
          some (setDepth (.node d m.2 m.1 (.node dl cl itl ll lr) r2))

/-- avl_delete (avl.c lines 379-408).  Returns -1 (NotFound) without touching
state when the word is absent; otherwise deletes, adjusts the counters, and
finally prints avl->state->root->item, a null dereference (none) when the
tree became empty. -/
def avl_delete (a : AVL) (w : Str) : Option (AVL × Int) :=
  let ex := avl_exists a.root w
  if ex = 0 then some (a, -1)
  else
    match a.root with
    | .nil => some (a, -1)
    | .node d c it l r =>
      match avl_delete_node (.node d c it l r) w with
      | none => none
      | some root2 =>
        let a2 : AVL := ⟨a.scm, a.items - ex, a.unique - 1, root2⟩
        match root2 with
        | .nil => none
        | .node _ _ _ _ _ => some (a2, 0)

/-- What persists in the backing file between sessions: the stored water mark
(the size_t header at the mapping base, kept current by scm_open and
scm_malloc), the file length, and — because the whole mapping is shared and
flushed verbatim by scm_close — the arena-resident state record with its
reachable node graph, present once it has been allocated. -/
structure FileModel where
  utilized : Nat
  size : Nat
  payload : Option (Nat × Nat × Tree)
deriving DecidableEq, Repr

/-- avl_open (avl.c lines 165-201) over scm_open (scm.c lines 52-111): with
truncate the water mark is reset and a fresh zeroed state record is allocated
at scm_mbase; without truncate, when the recovered water mark is nonzero, the
state record already at scm_mbase is adopted as-is. -/
def avl_open (f : FileModel) (truncate : Bool) : Option AVL :=
  let u0 := cond truncate 0 f.utilized
  if u0 ≠ 0 then
    match f.payload with
    | some (its, uni, r) => some ⟨⟨f.size, u0⟩, its, uni, r⟩
    | none => none
  else
    match scm_malloc ⟨f.size, u0⟩ stateSize with
    | none => none
    | some (scm1, _) => some ⟨scm1, 0, 0, .nil⟩

/-- avl_close (avl.c lines 203-211) over scm_close (scm.c lines 122-143):
msync flushes the mapping — whose base header already holds the water
mark — then unmaps; the file afterwards holds exactly the mapped contents. -/
def avl_close (a : AVL) : FileModel :=
  ⟨a.scm.utilized, a.scm.size, some (a.items, a.unique, a.root)⟩

/-- A user-level operation on the index. -/
inductive Op where
  | ins (w : Str)
  | del (w : Str)
deriving DecidableEq, Repr

/-- One shell step: run the operation, ignore its int result, propagate a
crash. -/
def stepOp (a : AVL) : Op → Option AVL
  | .ins w =>
    match avl_insert a w with
    | none => none
    | some p => some p.1
  | .del w =>
    match avl_delete a w with
    | none => none
    | some p => some p.1

/-- Run a sequence of index operations. -/
def runSeq (a : AVL) (ops : List Op) : Option AVL :=
  ops.foldlM stepOp a

/-- The AVL shape invariant of spec section 8 item 2: every node satisfies
abs (depth left - depth right) <= 1 and depth = 1 + max of the child depths,
with depth nil = -1. -/
def wellBalanced : Tree → Bool
  | .nil => true
  | .node d _ _ l r =>
    wellBalanced l && wellBalanced r &&
    decide ((delta l - delta r).natAbs ≤ 1) &&
    decide (d = 1 + max (delta l) (delta r))

/-- Word w is absent along the strcmp search path (the sense in which
avl_exists and the BST descent look keys up). -/
def searchAbsent : Tree → Str → Bool
  | .nil, _ => true
  | .node _ _ it l r, w =>
    let d := strcmp w it
    if d = 0 then false
    else if d < 0 then searchAbsent l w else searchAbsent r w

/-- The two allocations performed for a fresh word both sit at the start of
update's null-branch: the node allocation, then the string duplication.
This predicate says that attempt fails (one of the two steps returns NULL). -/
def allocFails (scm : SCM) (w : Str) : Bool :=
  match scm_malloc scm nodeSize with
  | none => true
  | some (scm1, _) => (scm_strdup scm1 w).isNone

/-- The index handle right after a truncated open of a size-sz file:
water mark past the state record and its size header, zeroed counters. -/
def freshAVL (sz : Nat) : AVL := ⟨⟨sz, stateSize + szWord⟩, 0, 0, .nil⟩

/-! ## Byte-level model of the mapped file

Needed for the claims about where in the file the utilization counter lives.
The mapping is a byte list; a size_t is stored as 8 little-endian bytes
(host order on the target). -/

/-- Byte i of the mapping, as the hardware would read it. -/
def byteAt (m : List Nat) (i : Nat) : Nat := (m.get? i).getD 0

/-- Read the size_t at byte offset off (8 little-endian bytes). -/
def readWord (m : List Nat) (off : Nat) : Nat :=
  byteAt m off +
    256 * (byteAt m (off + 1) +
      256 * (byteAt m (off + 2) +
        256 * (byteAt m (off + 3) +
          256 * (byteAt m (off + 4) +
            256 * (byteAt m (off + 5) +
              256 * (byteAt m (off + 6) +
                256 * byteAt m (off + 7)))))))

/-- Store the size_t u at byte offset off (8 little-endian bytes). -/
def writeWord (m : List Nat) (off u : Nat) : List Nat :=
  (((((((m.set off (u % 256)).set (off + 1) (u / 256 % 256)).set
      (off + 2) (u / 256 ^ 2 % 256)).set (off + 3) (u / 256 ^ 3 % 256)).set
      (off + 4) (u / 256 ^ 4 % 256)).set (off + 5) (u / 256 ^ 5 % 256)).set
      (off + 6) (u / 256 ^ 6 % 256)).set (off + 7) (u / 256 ^ 7 % 256)

/-- struct scm with the mapped region materialized: the byte contents and the
utilization water mark (size is the byte count). -/
structure SCMFull where
  mem : List Nat
  utilized : Nat
deriving DecidableEq, Repr

/-- scm_open (scm.c lines 52-111) at byte level: the shared mapping exposes
the file bytes; with truncate the header word at the base is zeroed, without
truncate the water mark is read back from the word at the base. -/
def scm_open_full (file : List Nat) (truncate : Bool) : SCMFull :=
  cond truncate ⟨writeWord file 0 0, 0⟩ ⟨file, readWord file 0⟩

/-- scm_malloc (scm.c lines 155-187) at byte level: capacity check, block
size header written at base + 8 + utilized, water mark advanced and stored
back into the word at the base. -/
def scm_malloc_full (s : SCMFull) (n : Nat) : Option (SCMFull × Nat) :=
  if n = 0 then none
  else if s.utilized + n + szWord > s.mem.length then none
  else
    let u2 := s.utilized + n + szWord
    some (⟨writeWord (writeWord s.mem (szWord + s.utilized) n) 0 u2, u2⟩,
          szWord + s.utilized + szWord)

/-- scm_close (scm.c lines 122-143): msync flushes the shared mapping, so
after unmapping the file holds exactly the mapped bytes. -/
def scm_close_full (s : SCMFull) : List Nat := s.mem

/-- A session step over the byte-level arena: an allocation, or a client
byte store through a pointer previously handed out by scm_malloc (every such
pointer is at byte offset 16 or beyond, hence past the base header). -/
inductive MOp where
  | alloc (n : Nat)
  | store (off b : Nat)
deriving DecidableEq, Repr

/-- Apply one session step; failed allocations leave the state unchanged
(the C caller just sees NULL). -/
def stepM (s : SCMFull) : MOp → SCMFull
  | .alloc n =>
    match scm_malloc_full s n with
    | none => s
    | some (s2, _) => s2
  | .store off b => if 16 ≤ off then ⟨s.mem.set off b, s.utilized⟩ else s

/-- Run a byte-level arena session. -/
def runM (s : SCMFull) (ops : List MOp) : SCMFull := ops.foldl stepM s

/-- The pointer update returns for an unchanged subtree when an allocation
failed below it: NULL when the subtree itself was the null insertion point,
the subtree unchanged otherwise. -/
def resOf : Tree → Option Tree
  | .nil => none
  | .node d c it l r => some (.node d c it l r)

/-- The invariant carried by the byte-level arena session: constant length,
water mark within bounds, and the word at the base holding the water mark. -/
def InvF (len : Nat) (s : SCMFull) : Prop :=
  s.mem.length = len ∧ s.utilized ≤ len ∧ readWord s.mem 0 = s.utilized

/-! ## Basic facts -/

/-- strcmp of a byte string with itself is zero. -/
theorem strcmp_self (w : Str) : strcmp w w = 0 := by
  induction w with
  | nil => rfl
  | cons a as ih => simp [strcmp, ih]

theorem resOf_getD (t : Tree) : (resOf t).getD .nil = t := by
  cases t <;> rfl

/-- The source's depth helper computes 1 + max of the stored child depths. -/
theorem depthC_eq (a b : Tree) : depthC a b = 1 + max (delta a) (delta b) := by
  unfold depthC
  rcases lt_or_le (delta b) (delta a) with h | h
  · rw [if_pos h, max_eq_left h.le]
    omega
  · rw [if_neg (not_lt.mpr h), max_eq_right h]
    omega

/-- On a node whose stored child depths differ by at most one, lines 129-149
of update only recompute the depth: the rotation block does not fire. -/
theorem updateReb_balanced (d : Int) (c : Nat) (it : Str) (l r : Tree)
    (w : Str) (hbal : (delta l - delta r).natAbs ≤ 1) :
    updateReb (.node d c it l r) w = some (.node (depthC l r) c it l r) := by
  unfold updateReb
  dsimp only
  rw [if_neg (by omega)]

/-! ## Byte-level lemmas for claim C2 -/

theorem byteAt_set_ne {m : List Nat} {p q : Nat} (b : Nat) (h : p ≠ q) :
    byteAt (m.set p b) q = byteAt m q := by
  unfold byteAt
  rw [List.get?_set_ne b m h]

theorem byteAt_set_self {m : List Nat} {p : Nat} (b : Nat) (h : p < m.length) :
    byteAt (m.set p b) p = b := by
  unfold byteAt
  rw [List.get?_set_eq_of_lt b h]
  rfl

theorem length_writeWord (m : List Nat) (off u : Nat) :
    (writeWord m off u).length = m.length := by
  simp [writeWord]

/-- A word store at or above off leaves every byte below off alone. -/
theorem byteAt_writeWord_lt (m : List Nat) (off u q : Nat) (h : q < off) :
    byteAt (writeWord m off u) q = byteAt m q := by
  unfold writeWord
  rw [byteAt_set_ne _ (by omega), byteAt_set_ne _ (by omega),
      byteAt_set_ne _ (by omega), byteAt_set_ne _ (by omega),
      byteAt_set_ne _ (by omega), byteAt_set_ne _ (by omega),
      byteAt_set_ne _ (by omega), byteAt_set_ne _ (by omega)]

/-- A word store at or above off + 8 leaves the word at off alone. -/
theorem readWord_writeWord_lt (m : List Nat) (off u q : Nat) (h : q + 8 ≤ off) :
    readWord (writeWord m off u) q = readWord m q := by
  unfold readWord
  rw [byteAt_writeWord_lt _ _ _ _ (by omega), byteAt_writeWord_lt _ _ _ _ (by omega),
      byteAt_writeWord_lt _ _ _ _ (by omega), byteAt_writeWord_lt _ _ _ _ (by omega),
      byteAt_writeWord_lt _ _ _ _ (by omega), byteAt_writeWord_lt _ _ _ _ (by omega),
      byteAt_writeWord_lt _ _ _ _ (by omega), byteAt_writeWord_lt _ _ _ _ (by omega)]

/-- A byte store at or above off + 8 leaves the word at off alone. -/
theorem readWord_set_ge (m : List Nat) (off b q : Nat) (h : q + 8 ≤ off) :
    readWord (m.set off b) q = readWord m q := by
  unfold readWord
  rw [byteAt_set_ne _ (by omega), byteAt_set_ne _ (by omega),
      byteAt_set_ne _ (by omega), byteAt_set_ne _ (by omega),
      byteAt_set_ne _ (by omega), byteAt_set_ne _ (by omega),
      byteAt_set_ne _ (by omega), byteAt_set_ne _ (by omega)]

/-- Reading back a stored word recovers it (in-bounds, below 2^64). -/
theorem readWord_writeWord_self (m : List Nat) (off u : Nat)
    (hlen : off + 8 ≤ m.length) (hu : u < 2 ^ 64) :
    readWord (writeWord m off u) off = u := by
  have h7 : byteAt (writeWord m off u) (off + 7) = u / 256 ^ 7 % 256 := by
    unfold writeWord
    apply byteAt_set_self
    try simp only [List.length_set]
    omega
  have h6 : byteAt (writeWord m off u) (off + 6) = u / 256 ^ 6 % 256 := by
    unfold writeWord
    rw [byteAt_set_ne _ (by omega)]
    apply byteAt_set_self
    try simp only [List.length_set]
    omega
  have h5 : byteAt (writeWord m off u) (off + 5) = u / 256 ^ 5 % 256 := by
    unfold writeWord
    rw [byteAt_set_ne _ (by omega), byteAt_set_ne _ (by omega)]
    apply byteAt_set_self
    try simp only [List.length_set]
    omega
  have h4 : byteAt (writeWord m off u) (off + 4) = u / 256 ^ 4 % 256 := by
    unfold writeWord
    rw [byteAt_set_ne _ (by omega), byteAt_set_ne _ (by omega),
        byteAt_set_ne _ (by omega)]
    apply byteAt_set_self
    try simp only [List.length_set]
    omega
  have h3 : byteAt (writeWord m off u) (off + 3) = u / 256 ^ 3 % 256 := by
    unfold writeWord
    rw [byteAt_set_ne _ (by omega), byteAt_set_ne _ (by omega),
        byteAt_set_ne _ (by omega), byteAt_set_ne _ (by omega)]
    apply byteAt_set_self
    try simp only [List.length_set]
    omega
  have h2 : byteAt (writeWord m off u) (off + 2) = u / 256 ^ 2 % 256 := by
    unfold writeWord
    rw [byteAt_set_ne _ (by omega), byteAt_set_ne _ (by omega),
        byteAt_set_ne _ (by omega), byteAt_set_ne _ (by omega),
        byteAt_set_ne _ (by omega)]
    apply byteAt_set_self
    try simp only [List.length_set]
    omega
  have h1 : byteAt (writeWord m off u) (off + 1) = u / 256 % 256 := by
    unfold writeWord
    rw [byteAt_set_ne _ (by omega), byteAt_set_ne _ (by omega),
        byteAt_set_ne _ (by omega), byteAt_set_ne _ (by omega),
        byteAt_set_ne _ (by omega), byteAt_set_ne _ (by omega)]
    apply byteAt_set_self
    try simp only [List.length_set]
    omega
  have h0 : byteAt (writeWord m off u) off = u % 256 := by
    unfold writeWord
    rw [byteAt_set_ne _ (by omega), byteAt_set_ne _ (by omega),
        byteAt_set_ne _ (by omega), byteAt_set_ne _ (by omega),
        byteAt_set_ne _ (by omega), byteAt_set_ne _ (by omega),
        byteAt_set_ne _ (by omega)]
    apply byteAt_set_self
    try simp only [List.length_set]
    omega
  unfold readWord
  rw [h0, h1, h2, h3, h4, h5, h6, h7]
  omega

/-- Every arena session step preserves the base-header invariant. -/
theorem stepM_inv (len : Nat) (hlen : len < 2 ^ 64) (s : SCMFull) (op : MOp)
    (hI : InvF len s) : InvF len (stepM s op) := by
  obtain ⟨hL, hU, hR⟩ := hI
  cases op with
  | alloc n =>
    unfold stepM
    dsimp only
    cases hm : scm_malloc_full s n with
    | none => exact ⟨hL, hU, hR⟩
    | some p =>
      obtain ⟨s2, pos⟩ := p
      unfold scm_malloc_full at hm
      split at hm
      · cases hm
      · split at hm
        · cases hm
        · next h0 hc =>
          cases hm
          simp only [szWord] at hc
          refine ⟨?_, ?_, ?_⟩
          · dsimp only
            rw [length_writeWord, length_writeWord, hL]
          · dsimp only
            simp only [szWord]
            omega
          · dsimp only
            apply readWord_writeWord_self
            · rw [length_writeWord, hL]
              omega
            · simp only [szWord]
              omega
  | store off b =>
    unfold stepM
    dsimp only
    by_cases ho : 16 ≤ off
    · rw [if_pos ho]
      refine ⟨by simp only [List.length_set]; exact hL, hU, ?_⟩
      rw [readWord_set_ge _ _ _ _ (by omega)]
      exact hR
    · rw [if_neg ho]
      exact ⟨hL, hU, hR⟩

/-- A whole arena session preserves the base-header invariant. -/
theorem runM_inv (len : Nat) (hlen : len < 2 ^ 64) (ops : List MOp) :
    ∀ s, InvF len s → InvF len (runM s ops) := by
  induction ops with
  | nil => intro s h; exact h
  | cons op ops ih => intro s h; exact ih (stepM s op) (stepM_inv len hlen s op h)

/-- A truncated open establishes the base-header invariant. -/
theorem open_trunc_inv (file : List Nat) (h8 : 8 ≤ file.length) :
    InvF file.length (scm_open_full file true) := by
  refine ⟨length_writeWord _ _ _, Nat.zero_le _, ?_⟩
  exact readWord_writeWord_self file 0 0 (by omega) (by norm_num)

/-! ## Claim C2 -/

/-- C2 (counterexample): the utilization counter does NOT live in the
trailing sizeof(size_t) bytes.  Open-truncate a 32-byte zero file, allocate
1 byte (U becomes 9), close: the trailing word of the file is 0, not 9.
And opening a file whose trailing word is 7 without truncate recovers
U = 0 (the leading word), not 7. -/
theorem C2_counterexample :
    ((scm_malloc_full (scm_open_full (List.replicate 32 0) true) 1).map
        (fun p => (readWord (scm_close_full p.1) 24, p.1.utilized)) = some (0, 9)) ∧
    (scm_open_full (writeWord (List.replicate 32 0) 24 7) false).utilized = 0 ∧
    readWord (writeWord (List.replicate 32 0) 24 7) 24 = 7 := by decide

/-- C2 (amended): the utilization counter U lives in the FIRST
sizeof(size_t) bytes of the file — the header at the mapping base, kept
current by scm_open (on truncate) and by every scm_malloc, and flushed
verbatim by scm_close.  After a truncated open and any session of
allocations and payload stores, the closed file's leading word equals U;
and an open without truncate reads U back from that leading word. -/
theorem C2_header_word (file : List Nat) (ops : List MOp)
    (h8 : 8 ≤ file.length) (hlen : file.length < 2 ^ 64) :
    readWord (scm_close_full (runM (scm_open_full file true) ops)) 0
      = (runM (scm_open_full file true) ops).utilized ∧
    (scm_open_full file false).utilized = readWord file 0 := by
  constructor
  · exact (runM_inv file.length hlen ops _ (open_trunc_inv file h8)).2.2
  · rfl

/-- Witness for C2_header_word: the empty session on a 32-byte zero file. -/
theorem C2_header_word_witness :
    readWord (scm_close_full (runM (scm_open_full (List.replicate 32 0) true) [])) 0
      = (runM (scm_open_full (List.replicate 32 0) true) []).utilized ∧
    (scm_open_full (List.replicate 32 0) false).utilized
      = readWord (List.replicate 32 0) 0 :=
  C2_header_word (List.replicate 32 0) [] (by decide) (by norm_num)

/-! ## Claim C1 -/

/-- C1 (counterexample): scm_malloc does NOT return the pointer B + U nor
advance U by exactly n: on the arena (N = 32, U = 0) a request of 8 bytes
returns offset 16 (not 0) and advances U to 16 (not 8), because of the
per-block size header. -/
theorem C1_counterexample :
    ¬ ∀ (scm : SCM) (n : Nat) (scm2 : SCM) (pos : Nat),
        scm_malloc scm n = some (scm2, pos) →
        pos = scm.utilized ∧ scm2.utilized = scm.utilized + n := by
  intro h
  have h2 := (h ⟨32, 0⟩ 8 ⟨32, 16⟩ 16 (by decide)).2
  exact absurd h2 (by decide)

/-- C1 (amended): scm_malloc fails exactly when n = 0 or
U + n + sizeof(size_t) exceeds N (the state unchanged, as no state is
produced); on success it returns the offset B + 2 sizeof(size_t) + U (one
word past the block-size header) and advances U by n + sizeof(size_t). -/
theorem C1_amended (scm : SCM) (n : Nat) :
    (scm_malloc scm n = none ↔ n = 0 ∨ scm.size < scm.utilized + n + szWord) ∧
    (n ≠ 0 → scm.utilized + n + szWord ≤ scm.size →
      scm_malloc scm n =
        some (⟨scm.size, scm.utilized + n + szWord⟩, szWord + scm.utilized + szWord)) := by
  constructor
  · unfold scm_malloc
    by_cases h0 : n = 0
    · simp [h0]
    · by_cases hc : scm.utilized + n + szWord > scm.size
      · simp [h0, hc]
      · simp [h0, hc]
  · intro h0 hc
    unfold scm_malloc
    rw [if_neg h0, if_neg (by omega)]

/-- Witness for C1_amended at the concrete arena (N = 32, U = 0), n = 8. -/
theorem C1_amended_witness :
    scm_malloc ⟨32, 0⟩ 8 = some (⟨32, 16⟩, 16) :=
  (C1_amended ⟨32, 0⟩ 8).2 (by decide) (by decide)

/-! ## Claim C10 -/

/-- C10: there is an arena state and request for which scm_malloc succeeds
although the block (header word at B + 8 + U, payload at the returned
offset) ends past the N-byte region: with N = 32, U = 0, n = 24 the check
0 + 24 + 8 > 32 fails to fire, yet the payload spans bytes [16, 40).
Moreover the overhang never exceeds sizeof(size_t) bytes. -/
theorem C10_overflow :
    (∃ (scm : SCM) (n : Nat) (scm2 : SCM) (pos : Nat),
        scm_malloc scm n = some (scm2, pos) ∧ scm.size < pos + n) ∧
    (∀ (scm : SCM) (n : Nat) (scm2 : SCM) (pos : Nat),
        scm_malloc scm n = some (scm2, pos) → pos + n ≤ scm.size + szWord) := by
  constructor
  · exact ⟨⟨32, 0⟩, 24, ⟨32, 32⟩, 16, by decide, by decide⟩
  · intro scm n scm2 pos h
    unfold scm_malloc at h
    split at h
    · cases h
    · split at h
      · cases h
      · next hc =>
          cases h
          simp only [szWord] at hc ⊢
          omega

/-- Witness for the bound in C10_overflow at the arena (N = 32, U = 0),
n = 24. -/
theorem C10_overflow_witness : (16 : Nat) + 24 ≤ 32 + szWord :=
  C10_overflow.2 ⟨32, 0⟩ 24 ⟨32, 32⟩ 16 (by decide)

/-! ## Claims C3, C4, C5: the insert rebalancing -/

/-- C3: inserting "a", "b", "c" (bytes 97, 98, 99) into a fresh index makes
the third insert trigger the imbalance branch, whose first conditional
correctly rotates left, after which the second conditional runs
unconditionally and calls rotate_left_right on a node whose left child has
no right child — a null-pointer dereference.  The run crashes instead of
applying exactly one rotation. -/
theorem C3_two_rotations_crash :
    runSeq (freshAVL 1000) [.ins [97], .ins [98], .ins [99]] = none := by decide

/-- C4: the S3 scenario — inserting the seven words "a".."g" in order into a
fresh index — crashes at the third insert (see C3) instead of producing a
balanced seven-node tree. -/
theorem C4_s3_crash :
    runSeq (freshAVL 1000)
      ([[97], [98], [99], [100], [101], [102], [103]].map Op.ins) = none := by decide

/-- C5: after the insert sequence "b","a","d","c","e","f" (which completes
without error), the resulting tree violates the AVL balance invariant: the
double application of rotations leaves the node "d" with a null left child
and a right child of depth 1. -/
theorem C5_invariant_broken :
    (runSeq (freshAVL 1000)
        ([[98], [97], [100], [99], [101], [102]].map Op.ins)).map
      (fun a => wellBalanced a.root) = some false := by decide

/-! ## Claim C6 -/

/-- C6 (counterexample): on a 400-byte arena the six inserts
"b","a","d","c","e","f" succeed, bringing the water mark to 380 so that the
next node allocation (380 + 40 + 8 > 400) must fail; the subsequent insert
of "g", instead of leaving the state unchanged, enters the rebalancing
branch of the already-unbalanced tree and crashes on a null dereference
after mutating part of the tree. -/
theorem C6_counterexample :
    (runSeq (freshAVL 400)
        ([[98], [97], [100], [99], [101], [102]].map Op.ins)).map
      (fun a => a.scm.utilized) = some 380 ∧
    (runSeq (freshAVL 400)
        ([[98], [97], [100], [99], [101], [102]].map Op.ins)).bind
      (fun a => avl_insert a [103]) = none := by decide

/-- When the word is absent and its two allocations cannot succeed, update
walks down, allocates nothing on the way, fails at the null insertion point,
and rebuilds the identical (balanced) tree on the way back: no rotation
fires and no counter moves. -/
theorem update_alloc_fail (w : Str) (t : Tree) :
    ∀ (scm : SCM) (st : AvlState),
      wellBalanced t = true → searchAbsent t w = true →
      allocFails scm w = true →
      ∃ scm2, update scm st t w = some (scm2, st, resOf t) := by
  induction t with
  | nil =>
    intro scm st _ _ hf
    unfold allocFails at hf
    cases hm : scm_malloc scm nodeSize with
    | none =>
      refine ⟨scm, ?_⟩
      unfold update
      rw [hm]
      rfl
    | some p =>
      obtain ⟨scm1, off⟩ := p
      rw [hm] at hf
      dsimp only at hf
      cases hs : scm_strdup scm1 w with
      | none =>
        refine ⟨scm1, ?_⟩
        unfold update
        rw [hm]
        dsimp only
        rw [hs]
        rfl
      | some q =>
        rw [hs] at hf
        simp at hf
  | node d c it l r ihl ihr =>
    intro scm st hb habs hf
    simp only [wellBalanced, Bool.and_eq_true, decide_eq_true_eq] at hb
    obtain ⟨⟨⟨hbl, hbr⟩, hbal⟩, hd⟩ := hb
    simp only [searchAbsent] at habs
    by_cases h0 : strcmp w it = 0
    · rw [if_pos h0] at habs
      simp at habs
    · rw [if_neg h0] at habs
      by_cases hlt : strcmp w it < 0
      · rw [if_pos hlt] at habs
        obtain ⟨scm2, hup⟩ := ihl scm st hbl habs hf
        refine ⟨scm2, ?_⟩
        unfold update
        rw [if_neg h0, if_pos hlt, hup]
        dsimp only
        rw [resOf_getD, updateReb_balanced d c it l r w hbal, depthC_eq, ← hd]
        rfl
      · rw [if_neg hlt] at habs
        obtain ⟨scm2, hup⟩ := ihr scm st hbr habs hf
        refine ⟨scm2, ?_⟩
        unfold update
        rw [if_neg h0, if_neg hlt, hup]
        dsimp only
        rw [resOf_getD, updateReb_balanced d c it l r w hbal, depthC_eq, ← hd]
        rfl

/-- C6 (amended): on a tree satisfying the AVL balance and depth invariants
and a word absent from it, an insert whose arena allocation fails (at the
node-allocation or the string-duplication step) leaves items, unique and the
whole tree unchanged — though when the tree is non-empty the failure is even
silent (return 0).  The restriction to invariant-satisfying trees is forced:
on the unbalanced trees the defective rebalancing makes reachable, a failed
insert can rotate part of the tree and crash (C6_counterexample). -/
theorem C6_atomic_fail (scm : SCM) (items unique : Nat) (t : Tree) (w : Str)
    (hb : wellBalanced t = true) (habs : searchAbsent t w = true)
    (hf : allocFails scm w = true) :
    ∃ scm2 flag, avl_insert ⟨scm, items, unique, t⟩ w =
      some (⟨scm2, items, unique, t⟩, flag) := by
  obtain ⟨scm2, hup⟩ := update_alloc_fail w t scm ⟨items, unique⟩ hb habs hf
  cases t with
  | nil =>
    refine ⟨scm2, -1, ?_⟩
    unfold avl_insert
    dsimp only
    rw [hup]
    rfl
  | node d c it l r =>
    refine ⟨scm2, 0, ?_⟩
    unfold avl_insert
    dsimp only
    rw [hup]
    rfl

/-- Witness for C6_atomic_fail: a full arena (N = U = 32) and the word "x"
on the empty tree. -/
theorem C6_atomic_fail_witness :
    ∃ scm2 flag, avl_insert ⟨⟨32, 32⟩, 0, 0, .nil⟩ [120] =
      some (⟨scm2, 0, 0, .nil⟩, flag) :=
  C6_atomic_fail ⟨32, 32⟩ 0 0 .nil [120] rfl rfl rfl

/-! ## Claim C7 -/

/-- scm_malloc never lowers the water mark and never changes the region
size. -/
theorem scm_malloc_mono (scm : SCM) (n : Nat) (res : SCM × Nat)
    (h : scm_malloc scm n = some res) :
    scm.utilized ≤ res.1.utilized ∧ res.1.size = scm.size := by
  unfold scm_malloc at h
  split at h
  · cases h
  · split at h
    · cases h
    · cases h
      refine ⟨?_, rfl⟩
      dsimp only
      omega

/-- scm_strdup never lowers the water mark and never changes the region
size. -/
theorem scm_strdup_mono (scm : SCM) (w : Str) (res : SCM × Nat)
    (h : scm_strdup scm w = some res) :
    scm.utilized ≤ res.1.utilized ∧ res.1.size = scm.size := by
  unfold scm_strdup scm_strdup_len at h
  split at h
  · cases h
  · exact scm_malloc_mono scm (w.length + 1) res h

/-- update never lowers the water mark and never changes the region size. -/
theorem update_mono (w : Str) (t : Tree) :
    ∀ (scm : SCM) (st : AvlState) (res : SCM × AvlState × Option Tree),
      update scm st t w = some res →
      scm.utilized ≤ res.1.utilized ∧ res.1.size = scm.size := by
  induction t with
  | nil =>
    intro scm st res h
    unfold update at h
    split at h
    · cases h
      exact ⟨le_refl _, rfl⟩
    · next scm1 _ hm =>
      split at h
      · next hs =>
        cases h
        exact scm_malloc_mono scm nodeSize _ hm
      · next q hs =>
        cases h
        obtain ⟨h1, h2⟩ := scm_malloc_mono scm nodeSize _ hm
        obtain ⟨h3, h4⟩ := scm_strdup_mono scm1 w _ hs
        exact ⟨le_trans h1 h3, by rw [h4, h2]⟩
  | node d c it l r ihl ihr =>
    intro scm st res h
    unfold update at h
    split at h
    · split at h
      · cases h
      · cases h
        exact ⟨le_refl _, rfl⟩
    · split at h
      · split at h
        · cases h
        · next scm2 st2 l2 hrec =>
          split at h
          · cases h
          · cases h
            exact ihl scm st (scm2, st2, l2) hrec
      · split at h
        · cases h
        · next scm2 st2 r2 hrec =>
          split at h
          · cases h
          · cases h
            exact ihr scm st (scm2, st2, r2) hrec

/-- avl_delete hands back the arena untouched: scm_free is a no-op in the
source (its body is commented out). -/
theorem avl_delete_scm (a : AVL) (w : Str) (p : AVL × Int)
    (h : avl_delete a w = some p) : p.1.scm = a.scm := by
  unfold avl_delete at h
  dsimp only at h
  by_cases hex : avl_exists a.root w = 0
  · rw [if_pos hex] at h
    cases h
    rfl
  · rw [if_neg hex] at h
    cases hr : a.root with
    | nil =>
      rw [hr] at h
      cases h
      rfl
    | node d c it l r =>
      rw [hr] at h
      dsimp only at h
      split at h
      · cases h
      · split at h
        · cases h
        · cases h
          rfl

/-- One shell operation never lowers the water mark and never changes the
region size (delete never frees: scm_free is a no-op). -/
theorem stepOp_mono (a : AVL) (op : Op) (a2 : AVL) (h : stepOp a op = some a2) :
    a.scm.utilized ≤ a2.scm.utilized ∧ a2.scm.size = a.scm.size := by
  cases op with
  | ins w =>
    unfold stepOp at h
    dsimp only at h
    split at h
    · cases h
    · next p hi =>
      cases h
      unfold avl_insert at hi
      split at hi
      · cases hi
      · next scm2 st2 hup =>
        cases hi
        exact update_mono w a.root a.scm ⟨a.items, a.unique⟩ _ hup
      · next scm2 st2 t hup =>
        cases hi
        exact update_mono w a.root a.scm ⟨a.items, a.unique⟩ _ hup
  | del w =>
    unfold stepOp at h
    dsimp only at h
    split at h
    · cases h
    · next p hd =>
      cases h
      rw [avl_delete_scm a w p hd]
      exact ⟨le_refl _, rfl⟩

/-- A whole session never lowers the water mark and never changes the
region size. -/
theorem runSeq_mono (ops : List Op) :
    ∀ (a b : AVL), runSeq a ops = some b →
      a.scm.utilized ≤ b.scm.utilized ∧ b.scm.size = a.scm.size := by
  induction ops with
  | nil =>
    intro a b h
    cases h
    exact ⟨le_refl _, rfl⟩
  | cons op ops ih =>
    intro a b h
    rw [runSeq, List.foldlM_cons] at h
    cases hs : stepOp a op with
    | none => rw [hs] at h; cases h
    | some a1 =>
      rw [hs] at h
      obtain ⟨h1, h2⟩ := stepOp_mono a op a1 hs
      obtain ⟨h3, h4⟩ := ih a1 b h
      exact ⟨le_trans h1 h3, by rw [h4, h2]⟩

/-- C7: any session of inserts and deletes that starts from a truncated
open and runs to completion survives a close and a non-truncated reopen:
the reopened index adopts the persisted state record and exposes the same
items, unique and in-order traversal. -/
theorem C7_persistence (f : FileModel) (ops : List Op) (a0 a : AVL)
    (hopen : avl_open f true = some a0) (hrun : runSeq a0 ops = some a) :
    ∃ a2, avl_open (avl_close a) false = some a2 ∧
      a2.items = a.items ∧ a2.unique = a.unique ∧
      inorder a2.root = inorder a.root := by
  have h0 : a0.scm.utilized ≠ 0 := by
    unfold avl_open at hopen
    dsimp only at hopen
    simp only [Bool.cond_true] at hopen
    rw [if_neg (by simp)] at hopen
    cases hm : scm_malloc ⟨f.size, 0⟩ stateSize with
    | none => rw [hm] at hopen; cases hopen
    | some p =>
      rw [hm] at hopen
      obtain ⟨scm1, off⟩ := p
      cases hopen
      unfold scm_malloc at hm
      split at hm
      · cases hm
      · split at hm
        · cases hm
        · cases hm
          simp [stateSize, szWord]
  have hge := runSeq_mono ops a0 a hrun
  have h2 : a.scm.utilized ≠ 0 := by omega
  refine ⟨⟨⟨a.scm.size, a.scm.utilized⟩, a.items, a.unique, a.root⟩, ?_, rfl, rfl, rfl⟩
  unfold avl_close avl_open
  dsimp only
  simp only [Bool.cond_false]
  rw [if_pos h2]

/-- Witness for C7_persistence: the empty session on a fresh 100-byte
file. -/
theorem C7_persistence_witness :
    ∃ a2, avl_open (avl_close (freshAVL 100)) false = some a2 ∧
      a2.items = (freshAVL 100).items ∧ a2.unique = (freshAVL 100).unique ∧
      inorder a2.root = inorder (freshAVL 100).root :=
  C7_persistence ⟨0, 100, none⟩ [] (freshAVL 100) (freshAVL 100) (by decide) rfl

/-! ## Claim C8 -/

/-- C8: avl_delete on a word whose avl_exists count is zero returns the
NotFound error (-1) and leaves the whole handle — counters, arena and all
reachable nodes — exactly as it was. -/
theorem C8_delete_missing (a : AVL) (w : Str) (h : avl_exists a.root w = 0) :
    avl_delete a w = some (a, -1) := by
  unfold avl_delete
  simp [h]

/-- Witness for C8_delete_missing: delete "zzz" from an empty index. -/
theorem C8_delete_missing_witness :
    avl_delete ⟨⟨100, 32⟩, 0, 0, .nil⟩ [122, 122, 122] =
      some (⟨⟨100, 32⟩, 0, 0, .nil⟩, -1) :=
  C8_delete_missing ⟨⟨100, 32⟩, 0, 0, .nil⟩ [122, 122, 122] rfl

/-! ## Claim C9 -/

/-- C9: on any index holding exactly one distinct word (a sole root node
with live count), deleting that word empties the tree and then avl_delete
dereferences the null root to print root->item — a crash, for every such
call. -/
theorem C9_delete_last_crash (sd : Int) (c : Nat) (w : Str) (scm : SCM)
    (items unique : Nat) (hc : c ≠ 0) :
    avl_delete ⟨scm, items, unique, .node sd c w .nil .nil⟩ w = none := by
  unfold avl_delete
  simp [avl_exists, avl_delete_node, strcmp_self, hc]

/-- Witness for C9_delete_last_crash: delete "a" from the index holding one
occurrence of "a". -/
theorem C9_delete_last_crash_witness :
    avl_delete ⟨⟨100, 90⟩, 1, 1, .node 0 1 [97] .nil .nil⟩ [97] = none :=
  C9_delete_last_crash 0 1 [97] ⟨100, 90⟩ 1 1 (by decide)

end SCMM
